import Mathlib

/-!
Verification of the gofins FINS-over-TCP library (folke99/gofins).

This file gives a shallow embedding, in Lean, of the pure computational core
of the Go sources: header construction (`fins/header.go`), the stream framer
(`fins/listener.go`), SID allocation (`fins/header.go`), the request/response
codec (`fins/driver.go`, `fins/address.go`), the command builders and the
pure validation/encoding/decoding prefixes of the client operations
(`fins/client.go`, `fins/readOps.go`), and the simulator request handler
(`fins/server.go`).

Conventions:
* Go machine integers are embedded as `Nat` with explicit `% 2^w` at each
  point where the Go code performs width-limited arithmetic or a conversion
  (`byte(x)` becomes `x % 256`, `uint16` addition becomes `(a + b) % 65536`,
  `uint64` accumulation becomes `% 2^64`).
* Byte slices are `List Nat` (each element a byte value).
* A Go slice expression `s[lo:hi]`, which panics when the bounds are bad, is
  embedded as `goSlice`, returning `none` exactly when Go would panic; code
  paths that can panic therefore live in `Option`.
* Effectful operations (socket writes, channel waits) are embedded by their
  pure prefix: each client operation is represented by the function from its
  arguments to either a validation error or the exact command bytes it hands
  to `sendCommand`.
-/

deriving instance DecidableEq for Except

namespace GoFins

/-! ## Byte-level helpers -/

/-- Big-endian decoding of two bytes, as in `binary.BigEndian.Uint16`. -/
def beUint16 (bs : List Nat) : Nat :=
  match bs with
  | [b0, b1] => b0 * 256 + b1
  | _ => 0

/-- Big-endian decoding of four bytes, as in `binary.BigEndian.Uint32`. -/
def beUint32 (bs : List Nat) : Nat :=
  match bs with
  | [b0, b1, b2, b3] => ((b0 * 256 + b1) * 256 + b2) * 256 + b3
  | _ => 0

/-- The client's configurable word byte order (`binary.ByteOrder`); the
default set in `NewClient` is big-endian. -/
inductive ByteOrder
  | big
  | little
deriving DecidableEq

/-- Decoding of a two-byte slice as a word (`byteOrder.Uint16`). -/
def ByteOrder.uint16 (o : ByteOrder) (bs : List Nat) : Nat :=
  match o, bs with
  | .big, [b0, b1] => b0 * 256 + b1
  | .little, [b0, b1] => b1 * 256 + b0
  | _, _ => 0

/-- Encoding of a word (already reduced mod 2^16 by the caller's `uint16`
conversion) into two bytes (`byteOrder.PutUint16`). -/
def ByteOrder.putUint16 (o : ByteOrder) (w : Nat) : List Nat :=
  match o with
  | .big => [w / 256 % 256, w % 256]
  | .little => [w % 256, w / 256 % 256]

/-- A Go slice expression `s[lo:hi]`: `none` exactly when Go panics
(that is, unless `lo ≤ hi ≤ len s`). -/
def goSlice (s : List Nat) (lo hi : Nat) : Option (List Nat) :=
  if lo ≤ hi ∧ hi ≤ s.length then some ((s.drop lo).take (hi - lo)) else none

/-- Go's `copy(dst, src)`: overwrites the first `min |dst| |src|` elements of
`dst` with those of `src`, returning the new contents of `dst`. -/
def goCopy (dst src : List Nat) : List Nat :=
  src.take dst.length ++ dst.drop src.length

/-- Go's `copy(arena[lo:hi], src)` applied to a whole arena: `none` exactly
when the slice expression `arena[lo:hi]` panics, otherwise the arena with the
copy performed in place. -/
def goSliceAssign (arena : List Nat) (lo hi : Nat) (src : List Nat) :
    Option (List Nat) :=
  match goSlice arena lo hi with
  | none => none
  | some dst => some (arena.take lo ++ goCopy dst src ++ arena.drop hi)

/-! ## Protocol constants

The memory-area, command-code and end-code constants live in the repository's
`mapping` package, which is not among the provided sources (only its callers
are). Their byte values are modelled from the spec: the spec fixes the command
codes (0x0101 read, 0x0102 write, 0x0701 clock, 0x0601 status) and the end
code 0x0000 for normal completion, and requires each memory-area code to be a
distinct byte, word- XOR bit-addressed; `src/unnamed/part_007` shows DM-word
on the wire as 0x82. The remaining values are the canonical Omron ones; no
claim below depends on anything but their distinctness and the fixed values
just named. -/

/-- Modelled from the spec: memory-area code for word-addressed DM
(`mapping.MemoryAreaDMWord`; wire value 0x82 per `src/unnamed/part_007`). -/
def MemoryAreaDMWord : Nat := 0x82

/-- Modelled from the spec: memory-area code for bit-addressed DM
(`mapping.MemoryAreaDMBit`). -/
def MemoryAreaDMBit : Nat := 0x02

/-- Modelled from the spec: memory-area code for word-addressed AR. -/
def MemoryAreaARWord : Nat := 0xB3

/-- Modelled from the spec: memory-area code for bit-addressed AR. -/
def MemoryAreaARBit : Nat := 0x33

/-- Modelled from the spec: memory-area code for word-addressed HR. -/
def MemoryAreaHRWord : Nat := 0xB2

/-- Modelled from the spec: memory-area code for bit-addressed HR. -/
def MemoryAreaHRBit : Nat := 0x32

/-- Modelled from the spec: memory-area code for word-addressed WR. -/
def MemoryAreaWRWord : Nat := 0xB1

/-- Modelled from the spec: memory-area code for bit-addressed WR. -/
def MemoryAreaWRBit : Nat := 0x31

/-- Modelled from the spec: command code of Memory Area Read. -/
def CommandCodeMemoryAreaRead : Nat := 0x0101

/-- Modelled from the spec: command code of Memory Area Write. -/
def CommandCodeMemoryAreaWrite : Nat := 0x0102

/-- Modelled from the spec: command code of Clock Read. -/
def CommandCodeClockRead : Nat := 0x0701

/-- Modelled from the spec: end code of normal completion. -/
def EndCodeNormalCompletion : Nat := 0x0000

/-- Modelled from the spec: end code produced by the simulator when the
address range check fails (`EndCodeAddressRangeExceeded`). -/
def EndCodeAddressRangeExceeded : Nat := 0x1101

/-- Modelled from the spec: end code produced by the simulator for
unsupported commands, areas, or short bodies
(`EndCodeNotSupportedByModelVersion`). -/
def EndCodeNotSupportedByModelVersion : Nat := 0x0401

/-! ## `fins/address.go`: addresses -/

/-- A FINS device address (`finsAddress`), three bytes. -/
structure finsAddress where
  network : Nat
  node : Nat
  unit : Nat
deriving DecidableEq

/-- A PLC memory address (`MemoryAddress`): area byte, word address
(uint16), bit offset byte. -/
structure MemoryAddress where
  memoryArea : Nat
  address : Nat
  bitOffset : Nat
deriving DecidableEq

/-- `memAddr`: a memory address with bit offset 0. -/
def memAddr (memoryArea : Nat) (address : Nat) : MemoryAddress :=
  ⟨memoryArea, address, 0⟩

/-- `memAddrWithBitOffset`. -/
def memAddrWithBitOffset (memoryArea address bitOffset : Nat) : MemoryAddress :=
  ⟨memoryArea, address, bitOffset⟩

/-- `encodeMemoryAddress`: 4 bytes, big-endian word address. -/
def encodeMemoryAddress (m : MemoryAddress) : List Nat :=
  [m.memoryArea % 256, m.address / 256 % 256, m.address % 256, m.bitOffset % 256]

/-- `decodeMemoryAddress` (`DecodeMemoryAddress` in `fins/address.go`):
requires at least 4 bytes. -/
def decodeMemoryAddress (data : List Nat) : Option MemoryAddress :=
  if data.length < 4 then none
  else some ⟨data.getD 0 0, beUint16 ((data.drop 1).take 2), data.getD 3 0⟩

/-! ## `fins/header.go`: the FINS command header -/

/-- The 10-byte FINS header (`Header`), one `Nat` per byte field. -/
structure Header where
  icf : Nat
  rsv : Nat
  gct : Nat
  dna : Nat
  da1 : Nat
  da2 : Nat
  sna : Nat
  sa1 : Nat
  sa2 : Nat
  sid : Nat
deriving DecidableEq

/-- ICF bit 0x80: command (versus response). -/
def ICFCommandResponse : Nat := 0x80

/-- ICF bit 0x40: response required. -/
def ICFResponseRequired : Nat := 0x40

/-- Default gateway count. -/
def DefaultGatewayCount : Nat := 0x02

/-- Default reserved byte. -/
def DefaultReserved : Nat := 0x00

/-- The ICF value that `defaultHeader` computes into its local variable
`icf` from the two flags (`icf |= ICFCommandResponse`,
`icf |= ICFResponseRequired`) — and then discards. -/
def computedICF (isCommand responseRequired : Bool) : Nat :=
  Nat.lor (if isCommand then ICFCommandResponse else 0)
    (if responseRequired then ICFResponseRequired else 0)

/-- `defaultHeader` from `fins/header.go`. NOTE: the Go function computes
the local variable `icf` from its two boolean flags, but the struct literal
it returns hardcodes `icf: 0x80`, ignoring the computed value; this
embedding mirrors that literal. -/
def defaultHeader (isCommand responseRequired : Bool)
    (src dst : finsAddress) (serviceID : Nat) : Header :=
  { icf := 0x80
    rsv := DefaultReserved
    gct := DefaultGatewayCount
    dna := dst.network
    da1 := dst.node
    da2 := dst.unit
    sna := src.network
    sa1 := src.node
    sa2 := src.unit
    sid := serviceID }

/-- `defaultCommandHeader`: the header used for every client command. -/
def defaultCommandHeader (src dst : finsAddress) (serviceID : Nat) : Header :=
  defaultHeader true true src dst serviceID

/-- `defaultResponseHeader` (from the header draft in
`src/unnamed/part_005`, called by the simulator): swaps source and
destination, clears ICF. -/
def defaultResponseHeader (commandHeader : Header) : Header :=
  { icf := 0x00
    rsv := DefaultReserved
    gct := commandHeader.gct
    dna := commandHeader.sna
    da1 := commandHeader.sa1
    da2 := commandHeader.sa2
    sna := commandHeader.dna
    sa1 := commandHeader.da1
    sa2 := commandHeader.da2
    sid := commandHeader.sid }

/-- `encodeHeader`: the 10 header bytes in order. -/
def encodeHeader (h : Header) : List Nat :=
  [h.icf, h.rsv, h.gct, h.dna, h.da1, h.da2, h.sna, h.sa1, h.sa2, h.sid]

/-- `decodeHeader`: fails on fewer than 10 bytes. -/
def decodeHeader (data : List Nat) : Option Header :=
  if data.length < 10 then none
  else some ⟨data.getD 0 0, data.getD 1 0, data.getD 2 0, data.getD 3 0,
    data.getD 4 0, data.getD 5 0, data.getD 6 0, data.getD 7 0,
    data.getD 8 0, data.getD 9 0⟩

/-! ## `fins/driver.go`: requests, responses, BCD -/

/-- A FINS command request (`Request`). -/
structure Request where
  header : Header
  commandCode : Nat
  data : List Nat
deriving DecidableEq

/-- A FINS command response (`Response`). -/
structure Response where
  header : Header
  commandCode : Nat
  endCode : Nat
  data : List Nat
deriving DecidableEq

/-- `DecodeRequest` (`decodeRequest` at the simulator's call site):
header, big-endian command code, remaining bytes as data; requires at
least 12 bytes. -/
def decodeRequest (bytes : List Nat) : Option Request :=
  if bytes.length < 12 then none
  else
    match decodeHeader (bytes.take 10) with
    | none => none
    | some header =>
      some ⟨header, beUint16 ((bytes.drop 10).take 2), bytes.drop 12⟩

/-- `DecodeResponse`: requires at least 14 bytes; payload is everything
after byte 14. -/
def decodeResponse (bytes : List Nat) : Option Response :=
  if bytes.length < 14 then none
  else
    some ⟨⟨bytes.getD 0 0, bytes.getD 1 0, bytes.getD 2 0, bytes.getD 3 0,
      bytes.getD 4 0, bytes.getD 5 0, bytes.getD 6 0, bytes.getD 7 0,
      bytes.getD 8 0, bytes.getD 9 0⟩,
      beUint16 ((bytes.drop 10).take 2),
      beUint16 ((bytes.drop 12).take 2),
      bytes.drop 14⟩

/-- `EncodeResponse`: header bytes, big-endian command code, big-endian
end code, data. -/
def encodeResponse (resp : Response) : List Nat :=
  encodeHeader resp.header ++
    [resp.commandCode / 256 % 256, resp.commandCode % 256,
     resp.endCode / 256 % 256, resp.endCode % 256] ++ resp.data

/-- The failures of the BCD decoder. `decodeBCD` in `fins/driver.go`
reports bad digits through the generic `BCDError` type with an
"invalid BCD digit" message; `badDigit` stands for that. The separate Go
type `BCDOverflowError` exists in `fins/error.go` but is never
constructed; `overflow` mirrors it. -/
inductive BCDFailure
  | badDigit
  | overflow
deriving DecidableEq

/-- Loop body of `decodeBCD`: processes the remaining bytes with the
accumulator so far. The Go accumulator is a `uint64`, so every
accumulation step wraps modulo 2^64 (Go integer overflow is silent); the
special case for a low nibble of 0xF applies only on the last byte
(`i == len(bcd)-1`, i.e. when the rest of the list is empty). -/
def decodeBCDAux (acc : Nat) : List Nat → Except BCDFailure Nat
  | [] => .ok acc
  | b :: rest =>
    let hi := b / 16 % 16
    let lo := b % 16
    if 9 < hi then .error .badDigit
    else
      let acc1 := (acc * 10 + hi) % 2 ^ 64
      if lo = 0x0f ∧ rest = [] then .ok acc1
      else if 9 < lo then .error .badDigit
      else decodeBCDAux ((acc1 * 10 + lo) % 2 ^ 64) rest

/-- `decodeBCD` from `fins/driver.go`. -/
def decodeBCD (bcd : List Nat) : Except BCDFailure Nat :=
  decodeBCDAux 0 bcd

/-! ## `fins/header.go`: SID allocation (`incrementSid`) -/

/-- One candidate step of the SID allocator: `c.sid++` on a byte wraps
modulo 256, and a result of 0 is bumped to 1. -/
def nextSid (sid : Nat) : Nat :=
  let s1 := (sid + 1) % 256
  if s1 = 0 then 1 else s1

/-- The `for` loop of `incrementSid` in `fins/header.go` (the
registry-checking version): advance the candidate; if it is not in the
response registry, or a full revolution has returned to the starting
value, stop and return it. The Go loop is unbounded; `fuel` bounds the
embedding. A fuel of 255 is enough for every terminating execution,
because the candidates repeat with period 255 (the loop diverges only in
the degraded state where the counter starts at 0 and every SID in 1..255
is registered, which `none` represents). -/
def incrementSidLoop (sid startSid : Nat) (resp : Nat → Bool) :
    Nat → Option Nat
  | 0 => none
  | fuel + 1 =>
    let s2 := nextSid sid
    if resp s2 = false then some s2
    else if s2 = startSid then some s2
    else incrementSidLoop s2 startSid resp fuel

/-- `incrementSid`: the registry `resp` holds the SIDs with an in-flight
request (`_, inUse := c.resp[c.sid]`); `sid` is the current counter. -/
def incrementSid (sid : Nat) (resp : Nat → Bool) : Option Nat :=
  incrementSidLoop sid sid resp 255

/-- Helper for C3: the base point of the candidate walk on the 255-cycle
`1..255`: position 254 for a counter at 0 (whose first candidate is 1),
otherwise `s - 1`. -/
def sidBase (s : Nat) : Nat :=
  if s = 0 then 254 else s - 1

/-! ## `fins/listener.go`: the stream framer -/

/-- The 4 ASCII bytes of the frame marker, `"FINS"`. -/
def FINS_MARKER : List Nat := [0x46, 0x49, 0x4E, 0x53]

/-- `MAX_PACKET_SIZE`. The two client drafts in the sources declare 4096
and 2048; the spec's default is 2048, which this embedding uses. No
theorem below depends on the choice. -/
def MAX_PACKET_SIZE : Nat := 2048

/-- Whether the 4 bytes of `data` starting at offset `i` are the FINS
marker. -/
def markerAt (data : List Nat) (i : Nat) : Bool :=
  decide ((data.drop i).take 4 = FINS_MARKER)

/-- The resync loop of `finsSplitFunc`
(`for i := 1; i < len(data)-3; i++`): starting at offset `i`, scan
`fuel` consecutive offsets for the marker. -/
def findMarkerLoop (data : List Nat) (i : Nat) : Nat → Option Nat
  | 0 => none
  | fuel + 1 =>
    if markerAt data i then some i else findMarkerLoop data (i + 1) fuel

/-- `finsSplitFunc` from `fins/listener.go`: one `bufio.SplitFunc` step.
Returns `(advance, token?)`; `(0, none)` requests more data. The Go loop
bound `i < len(data)-3` makes the resync scan cover offsets
`1 .. len(data)-4`, which is `len(data)-4` iterations. -/
def finsSplitFunc (data : List Nat) : Nat × Option (List Nat) :=
  if data.length < 8 then (0, none)
  else if ¬ markerAt data 0 then
    match findMarkerLoop data 1 (data.length - 4) with
    | some i => (i, none)
    | none => (1, none)
  else
    let messageLength := beUint32 ((data.drop 4).take 4)
    if messageLength = 0 ∨ messageLength > MAX_PACKET_SIZE then (8, none)
    else if data.length < 8 + messageLength then (0, none)
    else (8 + messageLength, some (data.take (8 + messageLength)))

/-- Repeated application of the split function to a byte stream, as the
`bufio.Scanner` does: skip tokens advance the stream; the first emitted
token stops the run. Returns the number of bytes consumed before the
token together with the token, `none` when the function stalls (wants
more data) or fuel runs out. -/
def splitRun : Nat → List Nat → Nat → Nat × Option (List Nat)
  | 0, _, consumed => (consumed, none)
  | fuel + 1, data, consumed =>
    match finsSplitFunc data with
    | (_, some tok) => (consumed, some tok)
    | (a, none) =>
      if a = 0 then (consumed, none)
      else splitRun fuel (data.drop a) (consumed + a)

/-- The length field a frame carries at offsets 4..7, big-endian. -/
def frameLen (F : List Nat) : Nat := beUint32 ((F.drop 4).take 4)

/-- A valid wire frame: the 4-byte marker, a payload length in
`(0, MAX_PACKET_SIZE]`, and exactly that many payload bytes after the
8-byte envelope head. -/
def validFrame (F : List Nat) : Prop :=
  F.take 4 = FINS_MARKER ∧ 0 < frameLen F ∧ frameLen F ≤ MAX_PACKET_SIZE ∧
    F.length = 8 + frameLen F

instance (F : List Nat) : Decidable (validFrame F) := by
  unfold validFrame; infer_instance

/-- The behaviour the framer-resynchronization claim asserts for a
garbage-then-frame stream: some number of split steps emits exactly `F`,
having consumed exactly the garbage before it. -/
def emitsExactly (garbage F : List Nat) : Prop :=
  ∃ fuel, splitRun fuel (garbage ++ F) 0 = (garbage.length, some F)

/-! ## Command builders (`readCommand`, `writeCommand`) -/

/-- `readCommand`: big-endian command code 0x0101, encoded memory
address, big-endian item count. (The Go code appends two zero bytes and
then overwrites them with `PutUint16`; the net bytes are the big-endian
item count.) -/
def readCommand (memoryAddr : MemoryAddress) (itemCount : Nat) : List Nat :=
  [CommandCodeMemoryAreaRead / 256 % 256, CommandCodeMemoryAreaRead % 256] ++
    encodeMemoryAddress memoryAddr ++ [itemCount / 256 % 256, itemCount % 256]

/-- `writeCommand`: as `readCommand` with code 0x0102, followed by the
payload bytes. -/
def writeCommand (memoryAddr : MemoryAddress) (itemCount : Nat)
    (bytes : List Nat) : List Nat :=
  [CommandCodeMemoryAreaWrite / 256 % 256, CommandCodeMemoryAreaWrite % 256] ++
    encodeMemoryAddress memoryAddr ++
    [itemCount / 256 % 256, itemCount % 256] ++ bytes

/-- `checkIsWordMemoryArea` from `fins/client.go`. -/
def checkIsWordMemoryArea (memoryArea : Nat) : Bool :=
  memoryArea = MemoryAreaDMWord || memoryArea = MemoryAreaARWord ||
    memoryArea = MemoryAreaHRWord || memoryArea = MemoryAreaWRWord

/-- `checkIsBitMemoryArea` from `fins/client.go`. -/
def checkIsBitMemoryArea (memoryArea : Nat) : Bool :=
  memoryArea = MemoryAreaDMBit || memoryArea = MemoryAreaARBit ||
    memoryArea = MemoryAreaHRBit || memoryArea = MemoryAreaWRBit

/-! ## Client operations: pure validation and encoding prefixes

Each client operation validates its arguments and then hands command
bytes to `sendCommand`. The embedding of an operation is the function
from its arguments to either the validation error it returns without
touching the wire, or the exact command bytes it sends. -/

/-- The client-side error values. `incompatibleMemoryArea` is the Go
`IncompatibleMemoryAreaError`; `invalidArgument` stands for the
`fmt.Errorf` validation errors the operations return before touching the
wire (the spec's `InvalidArgument`). -/
inductive ClientError
  | incompatibleMemoryArea (area : Nat)
  | invalidArgument
deriving DecidableEq

/-- `Client.WriteWords` (`fins/client.go` lines 208-220) up to the wire:
the item count is `uint16(len(data))` and the loop encodes that many
words with the client's byte order. There is no empty-input check in the
source. -/
def WriteWords (o : ByteOrder) (memoryArea address : Nat)
    (data : List Nat) : Except ClientError (List Nat) :=
  if checkIsWordMemoryArea memoryArea = false then
    .error (.incompatibleMemoryArea memoryArea)
  else
    let l := data.length % 65536
    let bts := (data.take l).flatMap (fun w => o.putUint16 (w % 65536))
    .ok (writeCommand (memAddr memoryArea address) l bts)

/-- `Client.WriteBytes` (`fins/client.go` lines 240-255) up to the wire:
rejects byte slices of odd length before anything is sent. -/
def WriteBytes (memoryArea address : Nat) (b : List Nat) :
    Except ClientError (List Nat) :=
  if ¬ checkIsWordMemoryArea memoryArea then
    .error (.incompatibleMemoryArea memoryArea)
  else if b.length % 2 ≠ 0 then .error .invalidArgument
  else
    .ok (writeCommand (memAddr memoryArea address) (b.length / 2 % 65536) b)

/-- `Client.WriteBits` (`fins/client.go` lines 258-276) up to the wire:
encodes `uint16(len(data))` booleans as 0x01/0x00 bytes. There is no
empty-input check in the source. -/
def WriteBits (memoryArea address bitOffset : Nat) (data : List Bool) :
    Except ClientError (List Nat) :=
  if checkIsBitMemoryArea memoryArea = false then
    .error (.incompatibleMemoryArea memoryArea)
  else
    let l := data.length % 65536
    let bts := (data.take l).map (fun b => if b then 0x01 else 0x00)
    .ok (writeCommand (memAddrWithBitOffset memoryArea address bitOffset) l bts)

/-- The decode loop of `Client.ReadWords` (`fins/client.go` lines
108-113): `data[i] = byteOrder.Uint16(r.data[i*2 : i*2+2])` for each
`i < readCount`, with no length check on the payload; `goSlice` makes
the Go panic on a short payload a `none`. `i` is the loop index, the
last argument the remaining iteration count. -/
def readWordsDecodeAux (o : ByteOrder) (data : List Nat) (i : Nat) :
    Nat → Option (List Nat)
  | 0 => some []
  | n + 1 =>
    match goSlice data (i * 2) (i * 2 + 2) with
    | none => none
    | some pair =>
      match readWordsDecodeAux o data (i + 1) n with
      | none => none
      | some rest => some (o.uint16 pair :: rest)

/-- The response-payload decode of `Client.ReadWords`: `readCount` words
from `data`. -/
def readWordsDecode (o : ByteOrder) (readCount : Nat) (data : List Nat) :
    Option (List Nat) :=
  readWordsDecodeAux o data 0 readCount

/-! ## The FINS/TCP envelope of `sendCommand` (`fins/client.go`,
second draft, lines 602-680) -/

/-- `Client.sendInitFrame`: the 16-byte envelope (plus the 4-byte client
node field for the initial handshake). The length and command fields are
written as `0x00, 0x00, 0x00, byte(v)` — only the low byte of `v` is
encoded. -/
def sendInitFrame (length commandCode : Nat) (initCon : Bool) : List Nat :=
  [0x46, 0x49, 0x4E, 0x53,
   0x00, 0x00, 0x00, length % 256,
   0x00, 0x00, 0x00, commandCode % 256,
   0x00, 0x00, 0x00, 0x00] ++
    (if initCon then [0x00, 0x00, 0x00, 0x00] else [])

/-- The envelope `Client.sendCommand` writes before header+command:
`sendInitFrame(18 + len(command), 2, false)`. -/
def sendCommandEnvelope (command : List Nat) : List Nat :=
  sendInitFrame (18 + command.length) 2 false

/-! ## `fins/server.go`: the simulator -/

/-- `DM_AREA_SIZE`: each arena is 32 KiB. -/
def DM_AREA_SIZE : Nat := 32768

/-- The simulator state (`Server`): the word arena and the bit arena. -/
structure Server where
  dmarea : List Nat
  bitdmarea : List Nat
deriving DecidableEq

/-- The dispatch core of `Server.handler` (`fins/server.go` lines
116-211): computes the possibly-updated state, the end code and the
response data. All arithmetic on `memAddr.address` and the item count
`ic` is Go `uint16` arithmetic, hence the explicit `% 65536`; `goSlice`
and `goSliceAssign` make the reachable Go slice-bounds panics `none`.
The Go code calls `decodeMemoryAddress(r.data[:4])` and ignores its
error (printing it and falling through with the zero value); with
`len(r.data) ≥ 6` already established the call cannot fail, and the
embedding takes the zero value as the default. -/
def handlerCore (s : Server) (r : Request) :
    Option (Server × Nat × List Nat) :=
  if r.data.length < 6 then
    some (s, EndCodeNotSupportedByModelVersion, [])
  else if r.commandCode = CommandCodeMemoryAreaRead ∨
      r.commandCode = CommandCodeMemoryAreaWrite then
    let ma := (decodeMemoryAddress (r.data.take 4)).getD ⟨0, 0, 0⟩
    let ic := beUint16 ((r.data.drop 4).take 2)
    if ma.memoryArea = MemoryAreaDMWord then
      if (ma.address + ic * 2) % 65536 > DM_AREA_SIZE then
        some (s, EndCodeAddressRangeExceeded, [])
      else if r.commandCode = CommandCodeMemoryAreaRead then
        match goSlice s.dmarea ma.address ((ma.address + ic * 2) % 65536) with
        | none => none
        | some bytes => some (s, EndCodeNormalCompletion, bytes)
      else
        -- write: the request slice r.data[6 : 6+ic*2] also indexes with
        -- uint16 arithmetic, so its high bound is (6 + ic*2) % 65536
        if r.data.length < 6 + ic * 2 % 65536 then
          some (s, EndCodeNotSupportedByModelVersion, [])
        else
          match goSlice r.data 6 ((6 + ic * 2) % 65536) with
          | none => none
          | some src =>
            match goSliceAssign s.dmarea ma.address
                ((ma.address + ic * 2) % 65536) src with
            | none => none
            | some dm => some (⟨dm, s.bitdmarea⟩, EndCodeNormalCompletion, [])
    else if ma.memoryArea = MemoryAreaDMBit then
      if (ma.address + ic) % 65536 > DM_AREA_SIZE then
        some (s, EndCodeAddressRangeExceeded, [])
      else
        let start := (ma.address + ma.bitOffset) % 65536
        if r.commandCode = CommandCodeMemoryAreaRead then
          match goSlice s.bitdmarea start ((start + ic) % 65536) with
          | none => none
          | some bytes => some (s, EndCodeNormalCompletion, bytes)
        else
          if r.data.length < 6 + ic then
            some (s, EndCodeNotSupportedByModelVersion, [])
          else
            match goSlice r.data 6 ((6 + ic) % 65536) with
            | none => none
            | some src =>
              match goSliceAssign s.bitdmarea start ((start + ic) % 65536)
                  src with
              | none => none
              | some bd => some (⟨s.dmarea, bd⟩, EndCodeNormalCompletion, [])
    else
      some (s, EndCodeNotSupportedByModelVersion, [])
  else
    some (s, EndCodeNotSupportedByModelVersion, [])

/-- `Server.handler`: the dispatch core wrapped into a response whose
header is the request header with addresses swapped and ICF cleared
(`defaultResponseHeader`), preserving the command code. `none` is a Go
panic. -/
def handler (s : Server) (r : Request) : Option (Server × Response) :=
  match handlerCore s r with
  | none => none
  | some (s2, endCode, data) =>
    some (s2, ⟨defaultResponseHeader r.header, r.commandCode, endCode, data⟩)

/-! ## Reference semantics for the BCD digit stream

The digit-sequence reading of the BCD decoder: each byte contributes its
high then low nibble; a low nibble of 0xF on the very last byte
terminates the number without contributing a digit. -/

/-- The digit sequence a byte string stands for, with a terminating 0xF
low nibble on the last byte dropped. -/
def bcdEffectiveDigits : List Nat → List Nat
  | [] => []
  | [b] =>
    if b % 16 = 0x0f then [b / 16 % 16] else [b / 16 % 16, b % 16]
  | b :: rest => b / 16 % 16 :: b % 16 :: bcdEffectiveDigits rest

/-- The value of the digit sequence, accumulated base-10 into a `uint64`
(wrapping modulo 2^64 at each step, as the Go accumulator does). -/
def bcdValue (bs : List Nat) : Nat :=
  (bcdEffectiveDigits bs).foldl (fun a d => (a * 10 + d) % 2 ^ 64) 0

/-! ## Composite: a client write-then-read round trip through the
simulator -/

/-- The arena state `NewPLCSimulator` allocates: two zeroed 32 KiB
arenas. -/
def initialServer : Server :=
  ⟨List.replicate DM_AREA_SIZE 0, List.replicate DM_AREA_SIZE 0⟩

/-- One client write followed by one client read of the same `|xs|`
words at the same address, end to end: the client validation and
encoding (`WriteWords` / `readCommand` as in `ReadWords`), the wire
request decode of the simulator (`decodeRequest` on header plus command
bytes), the simulator `handler` threading its arena state, the client
end-code check (`checkResponse`: non-zero end code is a failure,
`none` here), and the client payload decode of `ReadWords`. The header
contents (here the spec scenario addresses, SIDs 1 and 2) do not affect
the data path. -/
def simWriteThenRead (o : ByteOrder) (area addr : Nat) (xs : List Nat)
    (srv : Server) : Option (List Nat) :=
  match WriteWords o area addr xs with
  | .error _ => none
  | .ok wcmd =>
    match decodeRequest
        (encodeHeader (defaultCommandHeader ⟨0, 2, 0⟩ ⟨0, 10, 0⟩ 1) ++ wcmd) with
    | none => none
    | some wreq =>
      match handler srv wreq with
      | none => none
      | some (srv2, wresp) =>
        if wresp.endCode = EndCodeNormalCompletion then
          if checkIsWordMemoryArea area then
            match decodeRequest
                (encodeHeader (defaultCommandHeader ⟨0, 2, 0⟩ ⟨0, 10, 0⟩ 2) ++
                  readCommand (memAddr area addr) (xs.length % 65536)) with
            | none => none
            | some rreq =>
              match handler srv2 rreq with
              | none => none
              | some (_, rresp) =>
                if rresp.endCode = EndCodeNormalCompletion then
                  readWordsDecode o (xs.length % 65536) rresp.data
                else none
          else none
        else none

/-! ## C2: framer resynchronization -/

/-- Helper for C2: in a garbage-then-frame stream whose garbage part
contains no occurrence of the FINS marker, no offset inside the garbage
carries the marker — offsets whose 4-byte window straddles into the
frame cannot carry it either, because the frame itself begins with the
marker and no proper suffix of the marker is a prefix of it. -/
theorem markerAt_false_of_lt (garbage F : List Nat)
    (hg : ∀ j, (garbage.drop j).take 4 ≠ FINS_MARKER)
    (hF : F.take 4 = FINS_MARKER) :
    ∀ j, j < garbage.length → markerAt (garbage ++ F) j = false := by
  intro j hj
  simp only [markerAt, decide_eq_false_iff_not]
  intro hc
  rw [List.drop_append_eq_append_drop] at hc
  have hj0 : j - garbage.length = 0 := by omega
  rw [hj0, List.drop_zero, List.take_append_eq_append_take] at hc
  have hlen : (garbage.drop j).length = garbage.length - j := by simp
  rw [hlen] at hc
  by_cases hk : 4 ≤ garbage.length - j
  · have h40 : 4 - (garbage.length - j) = 0 := by omega
    rw [h40, List.take_zero, List.append_nil] at hc
    exact hg j hc
  · have hk1 : 1 ≤ garbage.length - j := by omega
    have htake : (garbage.drop j).take 4 = garbage.drop j :=
      List.take_of_length_le (by omega)
    rw [htake] at hc
    have hFt : F.take (4 - (garbage.length - j)) =
        FINS_MARKER.take (4 - (garbage.length - j)) := by
      rw [← hF, List.take_take, Nat.min_eq_left (by omega)]
    rw [hFt] at hc
    have h2 : garbage.drop j ++ FINS_MARKER.take (4 - (garbage.length - j)) =
        FINS_MARKER.take (garbage.length - j) ++
          FINS_MARKER.drop (garbage.length - j) := by
      rw [List.take_append_drop]
      exact hc
    have hlen2 : (garbage.drop j).length =
        (FINS_MARKER.take (garbage.length - j)).length := by
      rw [List.length_take, hlen]
      have : FINS_MARKER.length = 4 := by decide
      omega
    have hfinal := List.append_inj_right h2 hlen2
    have hcases : garbage.length - j = 1 ∨ garbage.length - j = 2 ∨
        garbage.length - j = 3 := by omega
    rcases hcases with h | h | h <;> rw [h] at hfinal <;>
      exact absurd hfinal (by decide)

/-- Helper for C2: the marker sits at the boundary offset. -/
theorem markerAt_boundary (garbage F : List Nat)
    (hF : F.take 4 = FINS_MARKER) :
    markerAt (garbage ++ F) garbage.length = true := by
  simp only [markerAt, decide_eq_true_eq]
  rw [List.drop_left]
  exact hF

/-- Helper for C2: the resync scan returns the first offset carrying the
marker, given enough fuel to reach it. -/
theorem findMarkerLoop_eq_some (data : List Nat) :
    ∀ fuel i g, i ≤ g → g < i + fuel →
      (∀ j, i ≤ j → j < g → markerAt data j = false) →
      markerAt data g = true →
      findMarkerLoop data i fuel = some g := by
  intro fuel
  induction fuel with
  | zero => intro i g h1 h2 _ _; omega
  | succ m ih =>
    intro i g h1 h2 hbusy hg
    rw [findMarkerLoop]
    by_cases hi : markerAt data i = true
    · have hieq : i = g := by
        by_contra hne
        have := hbusy i (le_refl i) (by omega)
        rw [hi] at this
        exact Bool.noConfusion this
      rw [if_pos hi, hieq]
    · rw [if_neg hi]
      have hig : i < g := by
        rcases Nat.eq_or_lt_of_le h1 with h | h
        · exact absurd (h ▸ hg) hi
        · exact h
      refine ih (i + 1) g (by omega) (by omega) ?_ hg
      intro j hj1 hj2
      exact hbusy j (by omega) hj2

/-- Helper for C2: the split function emits a whole valid frame sitting
at the head of the stream. -/
theorem finsSplitFunc_emits (F : List Nat) (h : validFrame F) :
    finsSplitFunc F = (8 + frameLen F, some F) := by
  obtain ⟨hm, hL1, hL2, hlen⟩ := h
  simp only [frameLen] at hL1 hL2 hlen ⊢
  simp only [finsSplitFunc]
  have hlen8 : ¬ F.length < 8 := by omega
  rw [if_neg hlen8]
  have hm0 : markerAt F 0 = true := by
    simp only [markerAt, List.drop_zero, decide_eq_true_eq]
    exact hm
  have hm0n : ¬ ¬ markerAt F 0 = true := by rw [hm0]; simp
  rw [if_neg hm0n]
  have hguard : ¬ (beUint32 (List.take 4 (List.drop 4 F)) = 0 ∨
      beUint32 (List.take 4 (List.drop 4 F)) > MAX_PACKET_SIZE) := by
    push_neg
    omega
  rw [if_neg hguard]
  have hlen2 : ¬ F.length < 8 + beUint32 (List.take 4 (List.drop 4 F)) := by
    omega
  rw [if_neg hlen2]
  have htake : F.take (8 + beUint32 (List.take 4 (List.drop 4 F))) = F := by
    rw [← hlen]
    exact List.take_length F
  rw [htake]

/-- Helper for C2: the first split step on a garbage-then-frame stream
with marker-free nonempty garbage skips exactly the garbage. -/
theorem finsSplitFunc_skips_garbage (garbage F : List Nat)
    (hg : ∀ j, (garbage.drop j).take 4 ≠ FINS_MARKER)
    (hF : validFrame F) (hg1 : 0 < garbage.length) :
    finsSplitFunc (garbage ++ F) = (garbage.length, none) := by
  obtain ⟨hm, hL1, hL2, hlen⟩ := hF
  have hdata : (garbage ++ F).length = garbage.length + (8 + frameLen F) := by
    rw [List.length_append, hlen]
  simp only [finsSplitFunc]
  have h8 : ¬ (garbage ++ F).length < 8 := by omega
  rw [if_neg h8]
  have hm0 : ¬ markerAt (garbage ++ F) 0 = true := by
    rw [markerAt_false_of_lt garbage F hg hm 0 hg1]
    exact Bool.noConfusion
  rw [if_pos hm0]
  have hfind : findMarkerLoop (garbage ++ F) 1 ((garbage ++ F).length - 4) =
      some garbage.length :=
    findMarkerLoop_eq_some (garbage ++ F) ((garbage ++ F).length - 4)
      1 garbage.length hg1 (by omega)
      (fun j hj1 hj2 => markerAt_false_of_lt garbage F hg hm j hj2)
      (markerAt_boundary garbage F hm)
  rw [hfind]

/-- C2 amended. For every byte stream made of garbage followed by one
valid frame F, where the garbage contains no occurrence of the 4-byte
FINS marker, repeatedly applying the split function eventually emits
exactly F, consuming exactly the garbage and no byte of F. (The
marker-freedom hypothesis is necessary: a spurious marker-plus-length
prefix inside the garbage makes the framer emit a wrong frame that
swallows bytes of F, see the counterexample.) -/
theorem C2_framer_resync (garbage F : List Nat) (hF : validFrame F)
    (hg : ∀ j, (garbage.drop j).take 4 ≠ FINS_MARKER) :
    emitsExactly garbage F := by
  rcases Nat.eq_zero_or_pos garbage.length with hg0 | hg1
  · obtain rfl : garbage = [] := List.length_eq_zero.mp hg0
    refine ⟨1, ?_⟩
    rw [splitRun, List.nil_append, finsSplitFunc_emits F hF]
    simp
  · refine ⟨2, ?_⟩
    rw [splitRun, finsSplitFunc_skips_garbage garbage F hg hF hg1]
    have hgne : ¬ garbage.length = 0 := by omega
    simp only [hgne, if_false, List.drop_left, Nat.zero_add]
    rw [splitRun, finsSplitFunc_emits F hF]

/-- Witness for C2 amended: three garbage bytes before a minimal valid
frame are skipped and the frame is emitted whole. -/
theorem C2_framer_resync_witness :
    emitsExactly [0x00, 0x01, 0x02]
      [0x46, 0x49, 0x4E, 0x53, 0x00, 0x00, 0x00, 0x01, 0xAB] :=
  C2_framer_resync [0x00, 0x01, 0x02]
    [0x46, 0x49, 0x4E, 0x53, 0x00, 0x00, 0x00, 0x01, 0xAB]
    (by decide)
    (by
      intro j hc
      have hl := congrArg List.length hc
      simp [FINS_MARKER] at hl
      omega)

/-- C2 counterexample. The claim quantifies over arbitrary garbage. For
the garbage `"FINS" ++ [0,0,0,1]` — a spurious marker with a plausible
length field — followed by a valid frame F, the split function emits the
9 bytes `garbage ++ F[0]`, consuming a byte of F; it never emits F after
exactly the garbage. -/
theorem C2_counterexample :
    validFrame [0x46, 0x49, 0x4E, 0x53, 0x00, 0x00, 0x00, 0x01, 0xAB] ∧
    ¬ emitsExactly [0x46, 0x49, 0x4E, 0x53, 0x00, 0x00, 0x00, 0x01]
      [0x46, 0x49, 0x4E, 0x53, 0x00, 0x00, 0x00, 0x01, 0xAB] := by
  refine ⟨by decide, ?_⟩
  rintro ⟨fuel, h⟩
  cases fuel with
  | zero =>
    rw [splitRun] at h
    simp at h
  | succ n =>
    rw [splitRun] at h
    have hstep : finsSplitFunc
        ([0x46, 0x49, 0x4E, 0x53, 0x00, 0x00, 0x00, 0x01] ++
          [0x46, 0x49, 0x4E, 0x53, 0x00, 0x00, 0x00, 0x01, 0xAB]) =
        (9, some [0x46, 0x49, 0x4E, 0x53, 0x00, 0x00, 0x00, 0x01, 0x46]) := by
      decide
    rw [hstep] at h
    simp at h

/-! ## C3: SID allocation -/

/-- Helper for C3: a candidate SID is never 0. -/
theorem nextSid_ne_zero (s : Nat) : nextSid s ≠ 0 := by
  simp only [nextSid]
  split_ifs <;> omega

/-- Helper for C3: closed form of the candidate walk. From any counter
value `s ≤ 255`, the k-th candidate is `(sidBase s + k) % 255 + 1`. -/
theorem nextSid_iterate (s : Nat) (hs : s ≤ 255) :
    ∀ k, 1 ≤ k → nextSid^[k] s = (sidBase s + k) % 255 + 1 := by
  intro k
  induction k with
  | zero => omega
  | succ m ih =>
    intro _
    rcases Nat.eq_zero_or_pos m with hm | hm
    · subst hm
      rw [Function.iterate_one]
      simp only [nextSid, sidBase]
      split_ifs <;> omega
    · rw [Function.iterate_succ_apply', ih hm]
      simp only [nextSid]
      have h255 : (sidBase s + m) % 255 < 255 := Nat.mod_lt _ (by omega)
      have hstep : (sidBase s + (m + 1)) % 255 =
          ((sidBase s + m) % 255 + 1) % 255 := by omega
      split_ifs <;> omega

/-- Helper for C3: within one revolution the walk does not return to its
starting counter value. -/
theorem nextSid_iterate_ne_start (s : Nat) (hs : s ≤ 255) (j : Nat)
    (hj1 : 1 ≤ j) (hj254 : j ≤ 254) : nextSid^[j] s ≠ s := by
  rw [nextSid_iterate s hs j hj1]
  unfold sidBase
  split_ifs with h0
  · omega
  · intro hc
    have h255 : (s - 1 + j) % 255 = s - 1 := by omega
    omega

/-- Helper for C3: every nonzero SID value up to 255 is hit by the walk
within 255 steps. -/
theorem nextSid_iterate_hits (s f : Nat) (hs : s ≤ 255) (hf1 : 1 ≤ f)
    (hf2 : f ≤ 255) : ∃ k, 1 ≤ k ∧ k ≤ 255 ∧ nextSid^[k] s = f := by
  have hb : sidBase s ≤ 254 := by unfold sidBase; split_ifs <;> omega
  set t := (255 + (f - 1) - sidBase s) % 255 with ht
  refine ⟨if t = 0 then 255 else t, ?_, ?_, ?_⟩
  · split_ifs <;> omega
  · have : t < 255 := Nat.mod_lt _ (by omega)
    split_ifs <;> omega
  · have hk1 : 1 ≤ if t = 0 then 255 else t := by split_ifs <;> omega
    rw [nextSid_iterate s hs _ hk1]
    split_ifs with h0 <;> omega

/-- Helper for C3: if the k-th candidate is the first free one and no
earlier candidate equals the starting value, the loop returns exactly
that candidate, given at least `k` fuel. -/
theorem incrementSidLoop_finds (resp : Nat → Bool) :
    ∀ fuel sid start k, 1 ≤ k → k ≤ fuel →
      resp (nextSid^[k] sid) = false →
      (∀ j, 1 ≤ j → j < k → resp (nextSid^[j] sid) = true) →
      (∀ j, 1 ≤ j → j < k → nextSid^[j] sid ≠ start) →
      incrementSidLoop sid start resp fuel = some (nextSid^[k] sid) := by
  intro fuel
  induction fuel with
  | zero => intro sid start k hk1 hk0 _ _ _; omega
  | succ m ih =>
    intro sid start k hk1 hkm hfree hbusy hstart
    rw [incrementSidLoop]
    rcases h2 : resp (nextSid sid) with _ | _
    · have hk : k = 1 := by
        by_contra hne
        have := hbusy 1 (by omega) (by omega)
        rw [Function.iterate_one] at this
        rw [this] at h2
        exact Bool.noConfusion h2
      subst hk
      simp [h2, Function.iterate_one]
    · have hkge : 2 ≤ k := by
        rcases Nat.lt_or_ge k 2 with h | h
        · interval_cases k
          · rw [Function.iterate_one] at hfree
            rw [hfree] at h2
            exact Bool.noConfusion h2
        · exact h
      have hne : nextSid sid ≠ start := by
        have := hstart 1 (by omega) (by omega)
        rwa [Function.iterate_one] at this
      simp only [h2, Bool.true_eq_false, if_false, ne_eq, hne,
        not_false_eq_true, if_neg]
      obtain ⟨k2, rfl⟩ : ∃ k2, k = k2 + 1 := ⟨k - 1, by omega⟩
      have happ : ∀ j, nextSid^[j] (nextSid sid) = nextSid^[j + 1] sid := by
        intro j
        rw [Function.iterate_succ_apply]
      rw [← happ k2]
      refine ih (nextSid sid) start k2 (by omega) (by omega) ?_ ?_ ?_
      · rw [happ k2]; exact hfree
      · intro j hj1 hjk
        rw [happ j]
        exact hbusy (j + 1) (by omega) (by omega)
      · intro j hj1 hjk
        rw [happ j]
        exact hstart (j + 1) (by omega) (by omega)

/-- Helper for C3: whatever the loop returns is some `nextSid` image,
hence nonzero. -/
theorem incrementSidLoop_some_ne_zero :
    ∀ fuel sid start resp s, incrementSidLoop sid start resp fuel = some s →
      s ≠ 0 := by
  intro fuel
  induction fuel with
  | zero => intro sid start resp s h; exact Option.noConfusion h
  | succ m ih =>
    intro sid start resp s h
    rw [incrementSidLoop] at h
    by_cases h2 : resp (nextSid sid) = false
    · rw [if_pos h2] at h
      obtain rfl : nextSid sid = s := Option.some.inj h
      exact nextSid_ne_zero sid
    · rw [if_neg h2] at h
      by_cases h3 : nextSid sid = start
      · rw [if_pos h3] at h
        obtain rfl : nextSid sid = s := Option.some.inj h
        exact nextSid_ne_zero sid
      · rw [if_neg h3] at h
        exact ih _ _ _ _ h

/-- C3. For every state of the SID counter (a byte, so at most 255) and
of the SID registry, (a) any SID the allocator returns is nonzero, and
(b) whenever some value in `1..255` is absent from the registry, the
allocator returns a SID that is nonzero and absent from the registry.
(`incrementSid` runs the Go loop with fuel 255, which covers every
terminating execution of the unbounded Go loop.) -/
theorem C3_incrementSid_fresh (sid0 : Nat) (resp : Nat → Bool)
    (hs : sid0 ≤ 255) :
    (∀ s, incrementSid sid0 resp = some s → s ≠ 0) ∧
    (∀ f, 1 ≤ f → f ≤ 255 → resp f = false →
      ∃ s, incrementSid sid0 resp = some s ∧ s ≠ 0 ∧ resp s = false) := by
  constructor
  · intro s h
    exact incrementSidLoop_some_ne_zero 255 sid0 sid0 resp s h
  · intro f hf1 hf2 hfree
    obtain ⟨k0, hk01, hk0255, hk0f⟩ := nextSid_iterate_hits sid0 f hs hf1 hf2
    have hex : ∃ k, 1 ≤ k ∧ resp (nextSid^[k] sid0) = false :=
      ⟨k0, hk01, by rw [hk0f]; exact hfree⟩
    set K := Nat.find hex with hKdef
    obtain ⟨hK1, hKfree⟩ := Nat.find_spec hex
    have hKle : K ≤ k0 := Nat.find_min' hex ⟨hk01, by rw [hk0f]; exact hfree⟩
    have hbusy : ∀ j, 1 ≤ j → j < K → resp (nextSid^[j] sid0) = true := by
      intro j hj1 hjK
      have := Nat.find_min hex hjK
      simp only [hj1, true_and] at this
      rcases h : resp (nextSid^[j] sid0) with _ | _
      · exact absurd h this
      · rfl
    have hstart : ∀ j, 1 ≤ j → j < K → nextSid^[j] sid0 ≠ sid0 := by
      intro j hj1 hjK
      exact nextSid_iterate_ne_start sid0 hs j hj1 (by omega)
    have hloop := incrementSidLoop_finds resp 255 sid0 sid0 K hK1
      (by omega) hKfree hbusy hstart
    refine ⟨nextSid^[K] sid0, hloop, ?_, hKfree⟩
    exact incrementSidLoop_some_ne_zero 255 sid0 sid0 resp _ hloop

/-- Witness for C3 at a concrete state: counter 0, empty registry; the
allocator yields a nonzero unregistered SID. -/
theorem C3_incrementSid_fresh_witness :
    ∃ s, incrementSid 0 (fun _ => false) = some s ∧ s ≠ 0 ∧
      (fun _ => false) s = false :=
  (C3_incrementSid_fresh 0 (fun _ => false) (by decide)).2 3 (by decide)
    (by decide) rfl

/-! ## C4: the simulator's DM-word range check -/

/-- C4 amended. For every simulator state and every memory-area read or
write request against DM-word with at least the 6 address/item-count
body bytes, whenever `address + 2*item-count` computed in Go uint16
arithmetic (mod 65536) exceeds the 32768-byte arena size, the handler
returns end code AddressRangeExceeded with an empty payload and leaves
both arenas unchanged (the returned state is the input state). -/
theorem C4_dmword_range_check (s : Server) (r : Request)
    (ma : MemoryAddress) (ic : Nat)
    (hma : (decodeMemoryAddress (r.data.take 4)).getD ⟨0, 0, 0⟩ = ma)
    (hic : beUint16 ((r.data.drop 4).take 2) = ic)
    (hcmd : r.commandCode = CommandCodeMemoryAreaRead ∨
      r.commandCode = CommandCodeMemoryAreaWrite)
    (hlen : 6 ≤ r.data.length)
    (harea : ma.memoryArea = MemoryAreaDMWord)
    (hrange : (ma.address + ic * 2) % 65536 > DM_AREA_SIZE) :
    handler s r = some (s, ⟨defaultResponseHeader r.header, r.commandCode,
      EndCodeAddressRangeExceeded, []⟩) := by
  have h6 : ¬ r.data.length < 6 := by omega
  simp only [handler, handlerCore, if_neg h6, if_pos hcmd, hma, hic,
    if_pos harea, if_pos hrange]

/-- Witness for C4 amended at a concrete input: a read of 1 word at
address 32767 (32767 + 2 = 32769 > 32768, no uint16 wrap) against the
fresh simulator. -/
theorem C4_dmword_range_check_witness :
    handler initialServer
      ⟨⟨0, 0, 0, 0, 0, 0, 0, 0, 0, 1⟩, CommandCodeMemoryAreaRead,
        [0x82, 0x7F, 0xFF, 0x00, 0x00, 0x01]⟩ =
    some (initialServer,
      ⟨defaultResponseHeader ⟨0, 0, 0, 0, 0, 0, 0, 0, 0, 1⟩,
        CommandCodeMemoryAreaRead, EndCodeAddressRangeExceeded, []⟩) :=
  C4_dmword_range_check initialServer
    ⟨⟨0, 0, 0, 0, 0, 0, 0, 0, 0, 1⟩, CommandCodeMemoryAreaRead,
      [0x82, 0x7F, 0xFF, 0x00, 0x00, 0x01]⟩
    ⟨0x82, 32767, 0x00⟩ 1 (by decide) (by decide) (Or.inl rfl) (by decide)
    (by decide) (by decide)

/-- C4 counterexample. The claim computes `address + 2*item-count` as
unbounded integers. For address 65535 and item count 1 the unbounded sum
65537 exceeds the arena size, so the claim demands AddressRangeExceeded;
the code's uint16 check computes (65535 + 2) mod 65536 = 1 ≤ 32768,
passes, and the subsequent slice `dmarea[65535:1]` panics (`none`): no
response is produced at all. -/
theorem C4_counterexample :
    0xFFFF + 2 * 1 > DM_AREA_SIZE ∧
    handler initialServer
      ⟨⟨0, 0, 0, 0, 0, 0, 0, 0, 0, 1⟩, CommandCodeMemoryAreaRead,
        [0x82, 0xFF, 0xFF, 0x00, 0x00, 0x01]⟩ = none := by
  constructor
  · decide
  · rfl

/-! ## C5: write-then-read round trip through the simulator -/

/-- Helper for C5: a word encoded by `putUint16` is two bytes. -/
theorem putUint16_length (o : ByteOrder) (w : Nat) :
    (o.putUint16 w).length = 2 := by
  cases o <;> rfl

/-- Helper for C5: decoding an encoded word gives the word back, for
either byte order. -/
theorem uint16_putUint16 (o : ByteOrder) (w : Nat) (h : w < 65536) :
    o.uint16 (o.putUint16 w) = w := by
  cases o <;> simp [ByteOrder.uint16, ByteOrder.putUint16] <;> omega

/-- Helper for C5: the client's word list encoding is two bytes per
word. -/
theorem encodeWords_length (o : ByteOrder) (xs : List Nat) :
    (xs.flatMap (fun w => o.putUint16 (w % 65536))).length = 2 * xs.length := by
  induction xs with
  | nil => rfl
  | cons x t ih =>
    simp only [List.flatMap_cons, List.length_append, putUint16_length, ih,
      List.length_cons]
    omega

/-- Helper for C5: the `ReadWords` decode loop inverts the client's word
list encoding, at any loop offset. -/
theorem readWordsDecodeAux_encode (o : ByteOrder) :
    ∀ (xs : List Nat) (i : Nat) (data : List Nat),
      (∀ x ∈ xs, x < 65536) →
      data.drop (i * 2) = xs.flatMap (fun w => o.putUint16 (w % 65536)) →
      data.length = i * 2 + 2 * xs.length →
      readWordsDecodeAux o data i xs.length = some xs := by
  intro xs
  induction xs with
  | nil => intro i data _ _ _; rfl
  | cons x t ih =>
    intro i data hx hdrop hlen
    rw [List.length_cons, readWordsDecodeAux]
    have hslice : goSlice data (i * 2) (i * 2 + 2) =
        some ((data.drop (i * 2)).take 2) := by
      have hc : i * 2 ≤ i * 2 + 2 ∧ i * 2 + 2 ≤ data.length := by
        rw [List.length_cons] at hlen
        omega
      rw [goSlice, if_pos hc]
      have h2 : i * 2 + 2 - i * 2 = 2 := by omega
      rw [h2]
    rw [hslice, hdrop]
    have htake2 : ((x :: t).flatMap
        (fun w => o.putUint16 (w % 65536))).take 2 = o.putUint16 (x % 65536) := by
      rw [List.flatMap_cons]
      exact List.take_left' (putUint16_length o (x % 65536))
    rw [htake2]
    have hxlt : x < 65536 := hx x (List.mem_cons_self x t)
    have hx65 : x % 65536 = x := Nat.mod_eq_of_lt hxlt
    have hrec : readWordsDecodeAux o data (i + 1) t.length = some t := by
      refine ih (i + 1) data (fun y hy => hx y (List.mem_cons_of_mem x hy))
        ?_ (by rw [List.length_cons] at hlen; omega)
      have hdd : data.drop ((i + 1) * 2) = (data.drop (i * 2)).drop 2 := by
        rw [List.drop_drop]
        congr 1
        omega
      rw [hdd, hdrop, List.flatMap_cons,
        List.drop_left' (putUint16_length o (x % 65536))]
    rw [hrec]
    show some (o.uint16 (o.putUint16 (x % 65536)) :: t) = some (x :: t)
    rw [uint16_putUint16 o (x % 65536) (by omega), hx65]

/-- Helper for C5: the wire request decode of a header-plus-command
message built by the client. -/
theorem decodeRequest_build (h : Header) (cmd : List Nat)
    (h2 : 2 ≤ cmd.length) :
    decodeRequest (encodeHeader h ++ cmd) =
      some ⟨h, beUint16 (cmd.take 2), cmd.drop 2⟩ := by
  have hlen10 : (encodeHeader h).length = 10 := rfl
  have hlen : (encodeHeader h ++ cmd).length = 10 + cmd.length := by
    rw [List.length_append, hlen10]
  simp only [decodeRequest]
  rw [if_neg (show ¬ (encodeHeader h ++ cmd).length < 12 by omega)]
  rw [List.take_left' hlen10]
  have hdh : decodeHeader (encodeHeader h) = some h := rfl
  rw [hdh, List.drop_left' hlen10]
  have h12 : (encodeHeader h ++ cmd).drop 12 = cmd.drop 2 := by
    rw [List.drop_append_eq_append_drop,
      List.drop_eq_nil_of_le (by omega), List.nil_append, hlen10]
  rw [h12]

/-- Helper for C5: the simulator handler on a well-formed DM-word write
request of `n` words at `addr` within bounds: it splices the payload
into the word arena at `[addr, addr + 2n)` and answers end code 0 with
an empty payload. -/
theorem handler_dmword_write (srv : Server) (hdr : Header) (addr n : Nat)
    (bts : List Nat) (hbts : bts.length = 2 * n) (hn : 0 < n)
    (hbound : addr + 2 * n ≤ DM_AREA_SIZE)
    (hdm : srv.dmarea.length = DM_AREA_SIZE) :
    handler srv ⟨hdr, CommandCodeMemoryAreaWrite,
      [0x82, addr / 256 % 256, addr % 256, 0, n / 256 % 256, n % 256] ++ bts⟩ =
    some (⟨srv.dmarea.take addr ++ bts ++ srv.dmarea.drop (addr + n * 2),
        srv.bitdmarea⟩,
      ⟨defaultResponseHeader hdr, CommandCodeMemoryAreaWrite,
        EndCodeNormalCompletion, []⟩) := by
  have hbound2 : addr + 2 * n ≤ 32768 := hbound
  have hdm2 : srv.dmarea.length = 32768 := hdm
  have e1 : addr / 256 % 256 * 256 + addr % 256 = addr := by omega
  have e2 : n / 256 % 256 * 256 + n % 256 = n := by omega
  have e3 : (addr + n * 2) % 65536 = addr + n * 2 :=
    Nat.mod_eq_of_lt (by omega)
  have e4 : n * 2 % 65536 = n * 2 := Nat.mod_eq_of_lt (by omega)
  have e5 : (6 + n * 2) % 65536 = 6 + n * 2 := Nat.mod_eq_of_lt (by omega)
  have hsrc : goSlice
      (130 :: addr / 256 % 256 :: addr % 256 :: 0 :: n / 256 % 256 ::
        n % 256 :: bts) 6 (6 + n * 2) = some bts := by
    have hck : (6 : Nat) ≤ 6 + n * 2 ∧ 6 + n * 2 ≤
        (130 :: addr / 256 % 256 :: addr % 256 :: 0 :: n / 256 % 256 ::
          n % 256 :: bts).length := by
      simp only [List.length_cons, hbts]
      omega
    rw [goSlice, if_pos hck]
    have h62 : 6 + n * 2 - 6 = n * 2 := by omega
    rw [h62]
    show some (bts.take (n * 2)) = some bts
    rw [List.take_of_length_le (by omega)]
  have hassign : goSliceAssign srv.dmarea addr (addr + n * 2) bts =
      some (srv.dmarea.take addr ++ bts ++ srv.dmarea.drop (addr + n * 2)) := by
    have hck : addr ≤ addr + n * 2 ∧ addr + n * 2 ≤ srv.dmarea.length := by
      omega
    simp only [goSliceAssign, goSlice, if_pos hck]
    have hsub : addr + n * 2 - addr = n * 2 := by omega
    rw [hsub]
    have hdl : ((srv.dmarea.drop addr).take (n * 2)).length = n * 2 := by
      rw [List.length_take, List.length_drop, hdm2]
      omega
    rw [goCopy, hdl, hbts]
    rw [List.take_of_length_le (show bts.length ≤ n * 2 by omega),
      List.drop_eq_nil_of_le
        (show ((srv.dmarea.drop addr).take (n * 2)).length ≤ 2 * n by
          rw [hdl]; omega),
      List.append_nil]
  simp [handler, handlerCore, decodeMemoryAddress, beUint16, Option.getD,
    hbts, e1, e2, e3, e4, e5, hsrc, hassign,
    MemoryAreaDMWord, MemoryAreaDMBit, CommandCodeMemoryAreaRead,
    CommandCodeMemoryAreaWrite, DM_AREA_SIZE, EndCodeNormalCompletion]
  have c1 : ¬ (2 * n + 1 + 1 + 1 + 1 + 1 + 1 < 6) := by omega
  have c2 : ¬ (32768 < addr + n * 2) := by omega
  have c3 : ¬ (2 * n + 1 + 1 + 1 + 1 + 1 + 1 < 6 + n * 2) := by omega
  rw [if_neg c1, if_neg c2, if_neg c3]

/-- Helper for C5: the simulator handler on a well-formed DM-word read
request of `n` words at `addr` within bounds: the state is unchanged and
the response payload is the arena slice `[addr, addr + 2n)`. -/
theorem handler_dmword_read (srv : Server) (hdr : Header) (addr n : Nat)
    (hn : 0 < n) (hbound : addr + 2 * n ≤ DM_AREA_SIZE)
    (hdm : srv.dmarea.length = DM_AREA_SIZE) :
    handler srv ⟨hdr, CommandCodeMemoryAreaRead,
      [0x82, addr / 256 % 256, addr % 256, 0, n / 256 % 256, n % 256]⟩ =
    some (srv, ⟨defaultResponseHeader hdr, CommandCodeMemoryAreaRead,
      EndCodeNormalCompletion, (srv.dmarea.drop addr).take (n * 2)⟩) := by
  have hbound2 : addr + 2 * n ≤ 32768 := hbound
  have hdm2 : srv.dmarea.length = 32768 := hdm
  have e1 : addr / 256 % 256 * 256 + addr % 256 = addr := by omega
  have e2 : n / 256 % 256 * 256 + n % 256 = n := by omega
  have e3 : (addr + n * 2) % 65536 = addr + n * 2 :=
    Nat.mod_eq_of_lt (by omega)
  have hslice : goSlice srv.dmarea addr (addr + n * 2) =
      some ((srv.dmarea.drop addr).take (n * 2)) := by
    rw [goSlice, if_pos (⟨by omega, by omega⟩ :
      addr ≤ addr + n * 2 ∧ addr + n * 2 ≤ srv.dmarea.length)]
    rw [show addr + n * 2 - addr = n * 2 from by omega]
  simp [handler, handlerCore, decodeMemoryAddress, beUint16, Option.getD,
    e1, e2, e3, hslice,
    MemoryAreaDMWord, MemoryAreaDMBit, CommandCodeMemoryAreaRead,
    CommandCodeMemoryAreaWrite, DM_AREA_SIZE, EndCodeNormalCompletion]
  rw [if_neg (show ¬ (32768 < addr + n * 2) from by omega)]

/-- C5 amended. For every byte order, address and non-empty word list
`xs` within the arena bounds, writing `xs` at the address and then
reading `|xs|` words back — each leg passing through the client
validation/encoding, the wire request decode and the simulator handler —
returns exactly `xs`, for the DM-word area. (DM-word is the only
word-addressed area the simulator services; every other word area is
answered with NotSupportedByModelVersion and the round trip fails, see
the counterexample. The embedding is sequential, which is the claim's
"no concurrent writer" condition.) -/
theorem C5_roundtrip_dmword (o : ByteOrder) (addr : Nat) (xs : List Nat)
    (srv : Server) (hne : xs ≠ []) (hbytes : ∀ x ∈ xs, x < 65536)
    (hbound : addr + 2 * xs.length ≤ DM_AREA_SIZE)
    (hdm : srv.dmarea.length = DM_AREA_SIZE) :
    simWriteThenRead o MemoryAreaDMWord addr xs srv = some xs := by
  have hbound2 : addr + 2 * xs.length ≤ 32768 := hbound
  have hdm2 : srv.dmarea.length = 32768 := hdm
  have hn : 0 < xs.length := List.length_pos.mpr hne
  have hn655 : xs.length % 65536 = xs.length := Nat.mod_eq_of_lt (by omega)
  have hbts : (xs.flatMap (fun w => o.putUint16 (w % 65536))).length =
      2 * xs.length := encodeWords_length o xs
  have hA : WriteWords o MemoryAreaDMWord addr xs =
      .ok (writeCommand (memAddr MemoryAreaDMWord addr) xs.length
        (xs.flatMap (fun w => o.putUint16 (w % 65536)))) := by
    simp only [WriteWords]
    rw [if_neg (by decide)]
    rw [hn655, List.take_length]
  have hwreq := decodeRequest_build
    (defaultCommandHeader ⟨0, 2, 0⟩ ⟨0, 10, 0⟩ 1)
    (writeCommand (memAddr MemoryAreaDMWord addr) xs.length
      (xs.flatMap (fun w => o.putUint16 (w % 65536))))
    (by simp [writeCommand, encodeMemoryAddress])
  have hH1 : handler srv ⟨defaultCommandHeader ⟨0, 2, 0⟩ ⟨0, 10, 0⟩ 1,
      beUint16 ((writeCommand (memAddr MemoryAreaDMWord addr) xs.length
        (xs.flatMap (fun w => o.putUint16 (w % 65536)))).take 2),
      (writeCommand (memAddr MemoryAreaDMWord addr) xs.length
        (xs.flatMap (fun w => o.putUint16 (w % 65536)))).drop 2⟩ =
      some (⟨srv.dmarea.take addr ++
          ((xs.flatMap (fun w => o.putUint16 (w % 65536))) ++
            srv.dmarea.drop (addr + xs.length * 2)), srv.bitdmarea⟩,
        ⟨defaultResponseHeader (defaultCommandHeader ⟨0, 2, 0⟩ ⟨0, 10, 0⟩ 1),
          CommandCodeMemoryAreaWrite, EndCodeNormalCompletion, []⟩) := by
    have h := handler_dmword_write srv
      (defaultCommandHeader ⟨0, 2, 0⟩ ⟨0, 10, 0⟩ 1) addr xs.length
      (xs.flatMap (fun w => o.putUint16 (w % 65536))) hbts hn hbound hdm
    rw [← List.append_assoc]
    exact h
  have hrreq := decodeRequest_build
    (defaultCommandHeader ⟨0, 2, 0⟩ ⟨0, 10, 0⟩ 2)
    (readCommand (memAddr MemoryAreaDMWord addr) xs.length)
    (by simp [readCommand, encodeMemoryAddress])
  have hdm3 : (srv.dmarea.take addr ++
      ((xs.flatMap (fun w => o.putUint16 (w % 65536))) ++
        srv.dmarea.drop (addr + xs.length * 2))).length = DM_AREA_SIZE := by
    have hds : DM_AREA_SIZE = 32768 := rfl
    simp only [List.length_append, List.length_take, List.length_drop, hbts,
      hdm2, hds]
    omega
  have hH2 : handler
      ⟨srv.dmarea.take addr ++
        ((xs.flatMap (fun w => o.putUint16 (w % 65536))) ++
          srv.dmarea.drop (addr + xs.length * 2)), srv.bitdmarea⟩
      ⟨defaultCommandHeader ⟨0, 2, 0⟩ ⟨0, 10, 0⟩ 2,
        beUint16 ((readCommand (memAddr MemoryAreaDMWord addr)
          xs.length).take 2),
        (readCommand (memAddr MemoryAreaDMWord addr) xs.length).drop 2⟩ =
      some (⟨srv.dmarea.take addr ++
          ((xs.flatMap (fun w => o.putUint16 (w % 65536))) ++
            srv.dmarea.drop (addr + xs.length * 2)), srv.bitdmarea⟩,
        ⟨defaultResponseHeader (defaultCommandHeader ⟨0, 2, 0⟩ ⟨0, 10, 0⟩ 2),
          CommandCodeMemoryAreaRead, EndCodeNormalCompletion,
          ((srv.dmarea.take addr ++
            ((xs.flatMap (fun w => o.putUint16 (w % 65536))) ++
              srv.dmarea.drop (addr + xs.length * 2))).drop addr).take
            (xs.length * 2)⟩) :=
    handler_dmword_read
      ⟨srv.dmarea.take addr ++
        ((xs.flatMap (fun w => o.putUint16 (w % 65536))) ++
          srv.dmarea.drop (addr + xs.length * 2)), srv.bitdmarea⟩
      (defaultCommandHeader ⟨0, 2, 0⟩ ⟨0, 10, 0⟩ 2) addr xs.length hn hbound
      hdm3
  have hslice_eq : ((srv.dmarea.take addr ++
      ((xs.flatMap (fun w => o.putUint16 (w % 65536))) ++
        srv.dmarea.drop (addr + xs.length * 2))).drop addr).take
      (xs.length * 2) = xs.flatMap (fun w => o.putUint16 (w % 65536)) := by
    have hta : (srv.dmarea.take addr).length = addr := by
      rw [List.length_take]
      omega
    rw [List.drop_append_eq_append_drop,
      List.drop_eq_nil_of_le (le_of_eq hta), hta, Nat.sub_self,
      List.drop_zero, List.nil_append, List.take_append_eq_append_take,
      List.take_of_length_le (show (xs.flatMap
        (fun w => o.putUint16 (w % 65536))).length ≤ xs.length * 2 by omega),
      hbts, show xs.length * 2 - 2 * xs.length = 0 from by omega,
      List.take_zero, List.append_nil]
  have hdec : readWordsDecode o xs.length
      (xs.flatMap (fun w => o.putUint16 (w % 65536))) = some xs :=
    readWordsDecodeAux_encode o xs 0
      (xs.flatMap (fun w => o.putUint16 (w % 65536))) hbytes
      (by rw [Nat.zero_mul, List.drop_zero]) (by omega)
  simp only [simWriteThenRead, hA, hwreq, hH1, hn655, hrreq, hH2, hslice_eq,
    hdec]
  simp
  decide

/-- Witness for C5 amended at concrete inputs: two words written at
address 100 of the fresh simulator read back identically. -/
theorem C5_roundtrip_dmword_witness :
    simWriteThenRead .big MemoryAreaDMWord 100 [0xABCD, 0x1234]
      initialServer = some [0xABCD, 0x1234] :=
  C5_roundtrip_dmword .big 100 [0xABCD, 0x1234] initialServer (by decide)
    (by decide) (by decide) (by simp [initialServer])

/-- C5 counterexample. The claim quantifies over every word-addressed
area. WR-word passes the client's word-area check, and address 0 with
one word is within the arena bounds, but the simulator handler services
only DM-word: the write is answered with NotSupportedByModelVersion, the
client's end-code check fails, and the round trip yields nothing instead
of `[1]`. -/
theorem C5_counterexample :
    checkIsWordMemoryArea MemoryAreaWRWord = true ∧
    simWriteThenRead .big MemoryAreaWRWord 0 [1] initialServer = none := by
  refine ⟨by decide, ?_⟩
  rfl

/-! ## C10: the `ReadWords` decode loop is unguarded -/

/-- Helper for C10: the decode loop fails exactly when the payload is too
short for the remaining words. -/
theorem readWordsDecodeAux_eq_none_iff (o : ByteOrder) (data : List Nat) :
    ∀ n i, readWordsDecodeAux o data i n = none ↔
      (0 < n ∧ data.length < i * 2 + 2 * n) := by
  intro n
  induction n with
  | zero => intro i; simp [readWordsDecodeAux]
  | succ m ih =>
    intro i
    rw [readWordsDecodeAux]
    by_cases hlen : i * 2 + 2 ≤ data.length
    · have hslice : goSlice data (i * 2) (i * 2 + 2) =
          some ((data.drop (i * 2)).take 2) := by
        simp [goSlice, hlen]
      rw [hslice]
      rcases hrec : readWordsDecodeAux o data (i + 1) m with _ | rest
      · rw [ih (i + 1)] at hrec
        simp only [reduceCtorEq, true_iff]
        omega
      · have hne : ¬(readWordsDecodeAux o data (i + 1) m = none) := by
          rw [hrec]; simp
        have hfact := (ih (i + 1)).not.mp hne
        simp only [reduceCtorEq, false_iff]
        omega
    · have hslice : goSlice data (i * 2) (i * 2 + 2) = none := by
        simp only [goSlice, ite_eq_right_iff]
        intro h
        omega
      rw [hslice]
      simp only [true_iff]
      omega

/-! ## C6: the BCD decoder -/

/-- Helper for C6: one full-byte step of the decode loop when both
nibbles of a non-final byte are decimal. -/
theorem decodeBCDAux_step (acc b c : Nat) (rest2 : List Nat)
    (hhi : b / 16 % 16 ≤ 9) (hlo : b % 16 ≤ 9) :
    decodeBCDAux acc (b :: c :: rest2) =
      decodeBCDAux (((acc * 10 + b / 16 % 16) % 2 ^ 64 * 10 + b % 16) % 2 ^ 64)
        (c :: rest2) := by
  rw [decodeBCDAux]
  have h1 : ¬ 9 < b / 16 % 16 := by omega
  have h2 : ¬ (b % 16 = 0x0f ∧ (c :: rest2 : List Nat) = []) := by simp
  have h3 : ¬ 9 < b % 16 := by omega
  simp [h1, h2, h3]

/-- Helper for C6: loop-level characterization of `decodeBCDAux` against
the digit-sequence semantics, for any starting accumulator. -/
theorem decodeBCDAux_spec (bs : List Nat) :
    ∀ acc, decodeBCDAux acc bs =
      if (bcdEffectiveDigits bs).all (fun d => d ≤ 9) then
        .ok ((bcdEffectiveDigits bs).foldl
          (fun a d => (a * 10 + d) % 2 ^ 64) acc)
      else .error .badDigit := by
  induction bs with
  | nil => intro acc; simp [decodeBCDAux, bcdEffectiveDigits]
  | cons b rest ih =>
    intro acc
    cases rest with
    | nil =>
      by_cases hhi : 9 < b / 16 % 16
      · have hhi2 : ¬(b / 16 % 16 ≤ 9) := by omega
        by_cases hlo15 : b % 16 = 0x0f
        · simp [decodeBCDAux, bcdEffectiveDigits, hhi, hlo15, hhi2]
        · simp [decodeBCDAux, bcdEffectiveDigits, hhi, hlo15, hhi2]
      · have hhi2 : b / 16 % 16 ≤ 9 := by omega
        by_cases hlo15 : b % 16 = 0x0f
        · simp [decodeBCDAux, bcdEffectiveDigits, hhi, hlo15, hhi2]
        · by_cases hlo9 : 9 < b % 16
          · have hlo92 : ¬(b % 16 ≤ 9) := by omega
            simp [decodeBCDAux, bcdEffectiveDigits, hhi, hlo15, hlo9, hhi2,
              hlo92]
          · have hlo92 : b % 16 ≤ 9 := by omega
            simp [decodeBCDAux, bcdEffectiveDigits, hhi, hlo15, hlo9, hhi2,
              hlo92]
    | cons c rest2 =>
      by_cases hhi : 9 < b / 16 % 16
      · have hhi2 : ¬(b / 16 % 16 ≤ 9) := by omega
        simp [decodeBCDAux, bcdEffectiveDigits, hhi, hhi2]
      · have hhi2 : b / 16 % 16 ≤ 9 := by omega
        by_cases hlo9 : 9 < b % 16
        · have hlo92 : ¬(b % 16 ≤ 9) := by omega
          simp [decodeBCDAux, bcdEffectiveDigits, hhi, hlo9, hhi2, hlo92]
        · have hlo92 : b % 16 ≤ 9 := by omega
          rw [decodeBCDAux_step acc b c rest2 hhi2 hlo92, ih]
          simp [bcdEffectiveDigits, hhi2, hlo92]

/-- C6 amended. For every input byte sequence, `decodeBCD` realizes the
digit-sequence semantics of `bcdEffectiveDigits` — each byte contributes
its high then low nibble, a low nibble of 0xF on the very last byte
terminates without contributing — failing with the bad-digit error
exactly when some effective digit exceeds 9, and otherwise accumulating
the digits base-10 into a `uint64` that wraps modulo 2^64: overflow is
not detected and no overflow error is ever produced. -/
theorem C6_decodeBCD_characterization (bs : List Nat) :
    decodeBCD bs =
      if (bcdEffectiveDigits bs).all (fun d => d ≤ 9) then .ok (bcdValue bs)
      else .error .badDigit :=
  decodeBCDAux_spec bs 0

/-- C6 counterexample. The claim requires a `BcdOverflow` error once the
accumulated value passes the u64 range. Eleven 0x99 bytes denote
10^22 - 1, far beyond 2^64 - 1, yet `decodeBCD` returns the wrapped
value successfully (the Go accumulator silently overflows and the
`BCDOverflowError` type is never constructed). -/
theorem C6_counterexample :
    decodeBCD (List.replicate 11 0x99) = .ok ((10 ^ 22 - 1) % 2 ^ 64) ∧
      2 ^ 64 ≤ 10 ^ 22 - 1 := by
  refine ⟨by decide, by decide⟩

/-- C10. For every byte order, word count and response payload, the
decode loop of `ReadWords` — which indexes `r.data[i*2 : i*2+2]` for each
`i < count` with no length validation — runs off the end of the payload
(the Go slice panic, `none` here) exactly when the payload is shorter
than `2·count` bytes; under the unstated precondition
`payload length ≥ 2·count` it always succeeds. -/
theorem C10_readWordsDecode_none_iff (o : ByteOrder) (readCount : Nat)
    (data : List Nat) :
    readWordsDecode o readCount data = none ↔ data.length < 2 * readCount := by
  rw [readWordsDecode, readWordsDecodeAux_eq_none_iff]
  omega

/-! # Claims -/

/-! ## C1: the default command header's ICF -/

/-- C1. The claim states that for every pair of source and destination
FINS addresses and every SID, the command header built by
`defaultCommandHeader` has ICF = 0xC0 (command bit and response-required
bit), with RSV = 0x00 and GCT = 0x02. RSV and GCT hold, but the ICF is
0x80: `defaultHeader` computes exactly 0xC0 into its local `icf`
variable from its two flags and then discards it, hardcoding 0x80 in the
returned struct, so the response-required bit is clear on every client
command header. This theorem records the divergence. -/
theorem C1_defaultCommandHeader_icf (src dst : finsAddress) (sid : Nat) :
    (defaultCommandHeader src dst sid).icf = 0x80 ∧
    (defaultCommandHeader src dst sid).rsv = 0x00 ∧
    (defaultCommandHeader src dst sid).gct = 0x02 ∧
    computedICF true true = 0xC0 ∧
    (defaultCommandHeader src dst sid).icf ≠ 0xC0 := by
  refine ⟨rfl, rfl, rfl, by decide, fun h => ?_⟩
  simp [defaultCommandHeader, defaultHeader] at h

/-! ## C7: the envelope length field of `sendCommand` -/

set_option maxRecDepth 4000 in
/-- C7. The claim states that the four bytes at offsets 4..7 of the
FINS/TCP envelope written by `sendCommand` encode, as a big-endian u32,
the exact payload length 8 + 10 + 2 + |body| = 18 + |command|, including
when it exceeds 255. `sendInitFrame` writes `0x00, 0x00, 0x00,
byte(length)`: only the low byte. For a 244-byte command the true length
is 262 but the field decodes to 6. -/
theorem C7_envelope_length_truncated :
    sendCommandEnvelope (List.replicate 244 0) =
      [0x46, 0x49, 0x4E, 0x53, 0x00, 0x00, 0x00, 0x06,
       0x00, 0x00, 0x00, 0x02, 0x00, 0x00, 0x00, 0x00] ∧
    beUint32 ((sendCommandEnvelope (List.replicate 244 0)).drop 4 |>.take 4)
      = 6 ∧
    18 + (List.replicate (α := Nat) 244 0).length = 262 ∧ (6 : Nat) ≠ 262 := by
  refine ⟨?_, by simp [sendCommandEnvelope, sendInitFrame, beUint32], by simp,
    by decide⟩
  simp [sendCommandEnvelope, sendInitFrame]

/-! ## C9: odd-length `WriteBytes` is rejected before the wire -/

/-- C9. For every word-addressed area, address, and byte slice of odd
length, `WriteBytes` returns the invalid-argument validation error
before constructing any command, so nothing reaches the socket and PLC
memory is unchanged. -/
theorem C9_WriteBytes_odd_rejected (memoryArea address : Nat)
    (b : List Nat) (harea : checkIsWordMemoryArea memoryArea = true)
    (hodd : b.length % 2 = 1) :
    WriteBytes memoryArea address b = .error .invalidArgument := by
  unfold WriteBytes
  rw [harea]
  simp [hodd]

/-- Witness for C9 at a concrete input: a one-byte write to DM-word. -/
theorem C9_WriteBytes_odd_rejected_witness :
    WriteBytes MemoryAreaDMWord 100 [0x01] = .error .invalidArgument :=
  C9_WriteBytes_odd_rejected MemoryAreaDMWord 100 [0x01] (by decide) (by decide)

/-! ## C8: empty `WriteWords` / `WriteBits` are NOT rejected -/

/-- C8 counterexample. The claim states that `WriteWords` with an empty
word list and `WriteBits` with an empty bool list return InvalidArgument
and touch nothing. Neither function has an empty-input check: both
produce a zero-item-count write command destined for the socket. -/
theorem C8_counterexample :
    WriteWords .big MemoryAreaDMWord 100 [] =
      .ok [0x01, 0x02, 0x82, 0x00, 0x64, 0x00, 0x00, 0x00] ∧
    WriteBits MemoryAreaDMBit 100 2 [] =
      .ok [0x01, 0x02, 0x02, 0x00, 0x64, 0x02, 0x00, 0x00] := by
  refine ⟨by decide, by decide⟩

/-- C8 amended. For every byte order, word-addressed area and address,
`WriteWords` on the empty list succeeds with the write command carrying
item count 0 and empty payload (and symmetrically for `WriteBits` on a
bit-addressed area): the empty input is not rejected, and the
zero-item-count command is handed to the wire. -/
theorem C8_empty_writes_send_zero_count (o : ByteOrder)
    (wordArea waddr bitArea baddr boff : Nat)
    (hw : checkIsWordMemoryArea wordArea = true)
    (hb : checkIsBitMemoryArea bitArea = true) :
    WriteWords o wordArea waddr [] =
      .ok (writeCommand (memAddr wordArea waddr) 0 []) ∧
    WriteBits bitArea baddr boff [] =
      .ok (writeCommand (memAddrWithBitOffset bitArea baddr boff) 0 []) := by
  constructor
  · unfold WriteWords
    rw [hw]
    rfl
  · unfold WriteBits
    rw [hb]
    rfl

/-- Witness for C8 amended at concrete inputs (DM-word and DM-bit). -/
theorem C8_empty_writes_send_zero_count_witness :
    WriteWords .big MemoryAreaDMWord 100 [] =
      .ok (writeCommand (memAddr MemoryAreaDMWord 100) 0 []) ∧
    WriteBits MemoryAreaDMBit 100 2 [] =
      .ok (writeCommand (memAddrWithBitOffset MemoryAreaDMBit 100 2) 0 []) :=
  C8_empty_writes_send_zero_count .big MemoryAreaDMWord 100 MemoryAreaDMBit
    100 2 (by decide) (by decide)

end GoFins
